import Mathlib

/-!
# Verification of the mark-sheet extraction and ranking program

A shallow embedding, over `List Char` lines, of the extraction and
aggregation pipeline of `app.py`:

* `extract_marks_from_pdf` : per-document record extraction driven by the
  enrollment-number regex `\b(2[34]14[0-9]{8})\b`, the name regex
  `CSE\(AIML\)\s+D[12]\s+(.+?)\s+[A-Z]{3}`, the score-triple regex
  `\b(\d{1,2})\s+(\d{1,2})\s+(\d{1,2})\b` searched over a 4-line window,
  the arithmetic validation `abs((a+b)-t) <= 1`, and the absence marker
  `'AB' in lines[i+1]`;
* `process_multiple_pdfs` : the batch driver that skips failed/empty
  documents and concatenates the rest in order;
* `calculate_cumulative_rankings` : pandas `groupby('Enrollment No')`
  with sums, distinct-source exam count, 2-decimal average, `rank`
  with `method='min', ascending=False`, and a sort by rank;
* `create_exam_wise_view` : the pivot by source file with missing cells,
  row sums that skip missing cells, and the same ranking.

Character classes model the ASCII behaviour of Python's `re` classes
(`\d`, `\w`, `\s`); quantifier backtracking of each regex is unfolded
into the equivalent deterministic matcher (for each regex the only
backtracking that can succeed is the one made explicit below).
Python floats are modelled as exact rationals, with `round(2)` modelled
as round-half-to-even at two decimals.
-/

/-- ASCII model of Python's regex class `\w` (letters, digits, underscore). -/
def isWordChar (c : Char) : Bool := c.isAlphanum || c == '_'

/-- ASCII model of Python's regex class `\s`. -/
def isPySpace (c : Char) : Bool :=
  c == ' ' || c == '\t' || c == '\n' || c == '\r' || c == '\x0b' || c == '\x0c'

/-- Numeric value of an ASCII digit character. -/
def digitVal (c : Char) : Nat := c.toNat - 48

/-- Model of `\s+` with maximal munch: requires at least one space, consumes the run,
returns the remainder. -/
def eatSpaces1 : List Char → Option (List Char)
  | [] => none
  | c :: cs => if isPySpace c then some (cs.dropWhile isPySpace) else none

/-! ## The enrollment-number regex `\b(2[34]14[0-9]{8})\b` (app.py line 25) -/

/-- The 12-character structural pattern `2[34]14[0-9]{8}` (no boundaries). -/
def identPattern : List Char → Bool
  | c0 :: c1 :: c2 :: c3 :: rest =>
      c0 == '2' && (c1 == '3' || c1 == '4') && c2 == '1' && c3 == '4' &&
      rest.length == 8 && rest.all Char.isDigit
  | _ => false

/-- The full anchored pattern at position `p` of line `l`: the structural
pattern plus the two `\b` word boundaries.  Since the pattern's first and
last characters are digits (word characters), each `\b` reduces to the
neighbouring character (when it exists) not being a word character. -/
def identMatchAt (l : List Char) (p : Nat) : Bool :=
  identPattern ((l.drop p).take 12) &&
  (p == 0 || !isWordChar (l.getD (p - 1) ' ')) &&
  (!isWordChar (l.getD (p + 12) ' '))

/-- Leftmost-match scan of `identMatchAt`, as `re.search` performs it. -/
def findIdentAux (l : List Char) : Nat → Nat → Option Nat
  | 0, _ => none
  | fuel + 1, p => if identMatchAt l p then some p else findIdentAux l fuel (p + 1)

/-- Model of `re.search(r'\b(2[34]14[0-9]{8})\b', line)`, returning group 1 of the
first match (app.py lines 25-28). -/
def findIdent (l : List Char) : Option (List Char) :=
  (findIdentAux l (l.length + 1) 0).map (fun p => (l.drop p).take 12)

/-! ## The score-triple regex `\b(\d{1,2})\s+(\d{1,2})\s+(\d{1,2})\b`
(app.py line 43)

Backtracking analysis: each `\d{1,2}` first tries two digits; giving one
back places a digit where `\s+` (groups 1,2) or `\b` (group 3) must match,
which always fails, so the greedy choice is the only viable one.  Giving
back characters of a `\s+` run places a space where `\d` must match, which
also always fails, so `\s+` is maximal munch.  The matcher below is
therefore equivalent to the backtracking regex at each start position. -/

/-- Group `(\d{1,2})\s+` : one or two digits followed by whitespace. -/
def numThenSpace : List Char → Option (Nat × List Char)
  | d1 :: d2 :: rest =>
      if d1.isDigit then
        if d2.isDigit then
          match eatSpaces1 rest with
          | some rest2 => some (10 * digitVal d1 + digitVal d2, rest2)
          | none => none
        else
          match eatSpaces1 (d2 :: rest) with
          | some rest2 => some (digitVal d1, rest2)
          | none => none
      else none
  | _ => none

/-- Group `(\d{1,2})\b` : the final group with its trailing word boundary. -/
def lastNum : List Char → Option Nat
  | [] => none
  | [d1] => if d1.isDigit then some (digitVal d1) else none
  | d1 :: d2 :: rest =>
      if d1.isDigit then
        if d2.isDigit then
          match rest with
          | [] => some (10 * digitVal d1 + digitVal d2)
          | c :: _ =>
              if isWordChar c then none
              else some (10 * digitVal d1 + digitVal d2)
        else
          if isWordChar d2 then none else some (digitVal d1)
      else none

/-- Attempt the whole triple regex at position `p` of `l` (the leading `\b`
reduces to the previous character not being a word character, because the
first matched character must be a digit). -/
def matchTripleFrom (l : List Char) (p : Nat) : Option (Nat × Nat × Nat) :=
  if p == 0 || !isWordChar (l.getD (p - 1) ' ') then
    match numThenSpace (l.drop p) with
    | some (a, cs1) =>
        match numThenSpace cs1 with
        | some (b, cs2) =>
            match lastNum cs2 with
            | some t => some (a, b, t)
            | none => none
        | none => none
    | none => none
  else none

/-- Leftmost-match scan for the triple regex. -/
def findTripleAux (l : List Char) : Nat → Nat → Option (Nat × Nat × Nat)
  | 0, _ => none
  | fuel + 1, p =>
      match matchTripleFrom l p with
      | some v => some v
      | none => findTripleAux l fuel (p + 1)

/-- Model of `re.search(r'\b(\d{1,2})\s+(\d{1,2})\s+(\d{1,2})\b', line)` : the first
score triple of a line (app.py line 43). -/
def findTriple (l : List Char) : Option (Nat × Nat × Nat) :=
  findTripleAux l (l.length + 1) 0

/-! ## The name regex `CSE\(AIML\)\s+D[12]\s+(.+?)\s+[A-Z]{3}`
(app.py lines 31-32) -/

/-- Three uppercase ASCII letters at the head (`[A-Z]{3}`). -/
def upper3 : List Char → Bool
  | a :: b :: c :: _ => a.isUpper && b.isUpper && c.isUpper
  | _ => false

/-- The tail `\s+[A-Z]{3}` of the name regex.  `[A-Z]` never matches a
space, so maximal munch for this `\s+` is complete. -/
def nameTail (cs : List Char) : Bool :=
  match eatSpaces1 cs with
  | some rest => upper3 rest
  | none => false

/-- The lazy group `(.+?)` followed by `nameTail`: grow the capture one
character at a time (each character is `.`, i.e. not a newline) and stop at
the first length whose remainder matches the tail. -/
def lazyCapture : List Char → List Char → Option (List Char)
  | [], _ => none
  | c :: cs, acc =>
      if c == '\n' then none
      else if nameTail cs then some (acc ++ [c])
      else lazyCapture cs (acc ++ [c])

/-- The `\s+` between `D[12]` and the capture, with its real backtracking:
greedy first (`k` spaces), then give back one space at a time; the capture's
`.` may then consume the returned spaces. -/
def trySpacesCapture (rest : List Char) : Nat → Option (List Char)
  | 0 => none
  | k + 1 =>
      match lazyCapture (rest.drop (k + 1)) [] with
      | some cap => some cap
      | none => trySpacesCapture rest k

/-- Attempt the whole name regex at the head of `cs`, returning group 1.
The first `\s+` sits before a `D`, which is not a space, so maximal munch
for it is complete. -/
def matchNameAt (cs : List Char) : Option (List Char) :=
  if "CSE(AIML)".data.isPrefixOf cs then
    match eatSpaces1 (cs.drop 9) with
    | none => none
    | some rest1 =>
      match rest1 with
      | d :: v :: rest2 =>
          if d == 'D' && (v == '1' || v == '2') then
            trySpacesCapture rest2 (rest2.takeWhile isPySpace).length
          else none
      | _ => none
  else none

/-- Leftmost-match scan for the name regex. -/
def resolveNameAux (l : List Char) : Nat → Nat → Option (List Char)
  | 0, _ => none
  | fuel + 1, p =>
      match matchNameAt (l.drop p) with
      | some cap => some cap
      | none => resolveNameAux l fuel (p + 1)

/-- Python's `str.strip()` (ASCII whitespace). -/
def pyStrip (cs : List Char) : List Char :=
  ((cs.dropWhile isPySpace).reverse.dropWhile isPySpace).reverse

/-- Model of `name_match.group(1).strip() if name_match else "Unknown"`
(app.py lines 31-32). -/
def resolveName (l : List Char) : List Char :=
  match resolveNameAux l (l.length + 1) 0 with
  | some cap => pyStrip cap
  | none => "Unknown".data

/-! ## Records and per-document extraction (app.py lines 7-81) -/

/-- Presence status.  In the source a present record simply lacks the
`'Status'` key; an absent record carries `'Status': 'Absent'`. -/
inductive Status where
  | present
  | absent
deriving DecidableEq, Repr

/-- One extracted row (app.py lines 52-59 and 67-75). -/
structure Record where
  enrollmentNo : List Char
  name : List Char
  sectionA : Nat
  sectionB : Nat
  totalMarks : Nat
  sourceFile : List Char
  status : Status
deriving DecidableEq, Repr

/-- Validation `abs((section_a + section_b) - total) <= 1` (app.py line 51). -/
def validTriple (a b t : ℤ) : Bool := (a + b - t).natAbs ≤ 1

/-- One iteration of the window loop (app.py lines 38-61): at window offset
`off`, if the line exists, find its first triple; the triple is accepted only
when it validates.  A found-but-rejected triple yields `none` here — and the
source loop then moves on to the next offset, because its `break` sits inside
the validation branch. -/
def acceptedAt (lines : List (List Char)) (i off : Nat) : Option (Nat × Nat × Nat) :=
  if i + off < lines.length then
    match findTriple (lines.getD (i + off) []) with
    | some (a, b, t) =>
        if validTriple (a : ℤ) (b : ℤ) (t : ℤ) then some (a, b, t) else none
    | none => none
  else none

/-- The `for offset in range(4)` window (app.py line 38), unrolled: the
first offset whose first triple passes validation wins. -/
def scanWindow (lines : List (List Char)) (i : Nat) : Option (Nat × Nat × Nat) :=
  match acceptedAt lines i 0 with
  | some v => some v
  | none =>
      match acceptedAt lines i 1 with
      | some v => some v
      | none =>
          match acceptedAt lines i 2 with
          | some v => some v
          | none => acceptedAt lines i 3

/-- The absence marker test `'AB' in lines[i+1]` (app.py lines 64-66):
plain substring containment on the immediately following line. -/
def absentMarker (lines : List (List Char)) (i : Nat) : Bool :=
  decide (i + 1 < lines.length) && decide (['A', 'B'] <:+: lines.getD (i + 1) [])

/-- Processing of one line of a page (app.py lines 23-75): look for an
enrollment number; when found, resolve the name, search the 4-line window
for a validated triple, and otherwise fall back to the absence marker on
the next line.  At most one record is emitted per line. -/
def processLine (src : List Char) (lines : List (List Char)) (i : Nat) : Option Record :=
  match findIdent (lines.getD i []) with
  | none => none
  | some enr =>
      let name := resolveName (lines.getD i [])
      match scanWindow lines i with
      | some (a, b, t) => some ⟨enr, name, a, b, t, src, Status.present⟩
      | none =>
          if absentMarker lines i then
            some ⟨enr, name, 0, 0, 0, src, Status.absent⟩
          else none

/-- One page: `page.extract_text()` either yields no text (`none`, skipped,
app.py lines 18-19) or an ordered list of lines; every line is processed in
order and the emitted records are collected in order. -/
def extractPage (src : List Char) (page : Option (List (List Char))) : List Record :=
  match page with
  | none => []
  | some lines => (List.range lines.length).filterMap (processLine src lines)

/-- A document handed to the extractor: either its pages' text lines, or an
unreadable document whose opening raises (app.py lines 77-79). -/
inductive PdfDoc where
  | readable (name : List Char) (pages : List (Option (List (List Char))))
  | unreadable (name : List Char)
deriving DecidableEq, Repr

/-- The document name, used to tag records. -/
def PdfDoc.docName : PdfDoc → List Char
  | .readable n _ => n
  | .unreadable n => n

/-- Model of `extract_marks_from_pdf` (app.py lines 7-81): page by page, line by
line; an unreadable document is caught by the `except` branch and yields an
empty frame. -/
def extract_marks_from_pdf (doc : PdfDoc) : List Record :=
  match doc with
  | .unreadable _ => []
  | .readable name pages => (pages.map (extractPage name)).flatten

/-- Model of `process_multiple_pdfs` (app.py lines 83-117): each document is
extracted independently; empty results are skipped (with a warning in the
source) and the rest are concatenated in document order; when nothing was
extracted the result is the empty frame, not an exception. -/
def process_multiple_pdfs (docs : List PdfDoc) : List Record :=
  (((docs.map extract_marks_from_pdf).filter (fun l => !l.isEmpty)).flatten)

/-! ## Aggregation: `calculate_cumulative_rankings` (app.py lines 119-159) -/

/-- Code-point lexicographic order on strings, as Python compares `str`
(pandas sorts group keys with it). -/
def strLt : List Char → List Char → Bool
  | [], [] => false
  | [], _ :: _ => true
  | _ :: _, [] => false
  | a :: as, b :: bs => if a < b then true else if b < a then false else strLt as bs

/-- Non-strict string order used as the sort relation. -/
def strLe (a b : List Char) : Prop := strLt b a = false

instance : DecidableRel strLe := fun _a _b => inferInstanceAs (Decidable (_ = false))

/-- Model of `pandas.Series.unique` (fuel-structural so that the kernel can
evaluate it): distinct values in order of first appearance. -/
def uniqueKeepFirstAux : Nat → List (List Char) → List (List Char)
  | 0, _ => []
  | _, [] => []
  | fuel + 1, x :: xs => x :: uniqueKeepFirstAux fuel (xs.filter (fun y => y != x))

/-- Model of `pandas.Series.unique`: distinct values in order of first appearance
(app.py line 132). -/
def uniqueKeepFirst (l : List (List Char)) : List (List Char) :=
  uniqueKeepFirstAux l.length l

/-- Round-half-to-even to an integer, the rounding numpy applies, written
with integer floor division and remainder: for `q = n/d` (`d > 0`), with
`f = ⌊q⌋` and remainder `r = n − d·f ∈ [0, d)`, compare `2r` with `d`. -/
def roundHalfEven (q : ℚ) : ℤ :=
  let n := q.num
  let d := (q.den : ℤ)
  let f := n.fdiv d
  let r := n - d * f
  if 2 * r < d then f
  else if d < 2 * r then f + 1
  else if f % 2 = 0 then f else f + 1

/-- Model of `.round(2)` (app.py line 144), on exact rationals:
`roundHalfEven(100·q) / 100`, with `100·q` and the final division written
via `Rat.divInt` so that the kernel can evaluate them. -/
def round2 (q : ℚ) : ℚ :=
  Rat.divInt (roundHalfEven (Rat.divInt (100 * q.num) (q.den : ℤ))) 100

/-- One row of the cumulative table (app.py lines 127-149). -/
structure AggEntry where
  enrollmentNo : List Char
  name : List Char
  cumulativeTotal : Nat
  totalSectionA : Nat
  totalSectionB : Nat
  sourceFiles : List (List Char)
  examCount : Nat
  averagePerExam : ℚ
  rank : Nat
deriving DecidableEq, Repr

/-- The aggregation of one `groupby('Enrollment No')` group (app.py lines
127-144): name is the group's first, marks columns are summed, source files
are deduplicated in first-appearance order, `Exam Count` is their number,
and the average is the 2-decimal rounding of total over count.  `Rank` is
filled in afterwards. -/
def aggEntryFor (records : List Record) (k : List Char) : AggEntry :=
  let g := records.filter (fun r => r.enrollmentNo == k)
  let cum := (g.map (·.totalMarks)).sum
  let srcs := uniqueKeepFirst (g.map (·.sourceFile))
  { enrollmentNo := k
    name := ((g.head?).map (·.name)).getD "Unknown".data
    cumulativeTotal := cum
    totalSectionA := (g.map (·.sectionA)).sum
    totalSectionB := (g.map (·.sectionB)).sum
    sourceFiles := srcs
    examCount := srcs.length
    averagePerExam := round2 (Rat.divInt (cum : ℤ) (srcs.length : ℤ))
    rank := 0 }

/-- Model of `rank(method='min', ascending=False)` (app.py lines 147-149): each row's
rank is one plus the number of rows with strictly larger cumulative total. -/
def assignRanks (pre : List AggEntry) : List AggEntry :=
  pre.map (fun e =>
    { e with rank := 1 + (pre.filter (fun x => e.cumulativeTotal < x.cumulativeTotal)).length })

/-- Rank order on aggregate rows, for `sort_values('Rank')`. -/
def aggRankLe (a b : AggEntry) : Prop := a.rank ≤ b.rank

instance : DecidableRel aggRankLe := fun _a _b => inferInstanceAs (Decidable (_ ≤ _))

/-- Model of `calculate_cumulative_rankings` (app.py lines 119-159): group by
enrollment number (pandas sorts group keys), aggregate each group, assign
min-ranks on cumulative total descending, and order rows by rank. -/
def calculate_cumulative_rankings (records : List Record) : List AggEntry :=
  let keys := List.insertionSort strLe ((records.map (·.enrollmentNo)).dedup)
  List.insertionSort aggRankLe (assignRanks (keys.map (aggEntryFor records)))

/-! ## Pivot: `create_exam_wise_view` (app.py lines 161-188) -/

/-- One row of the exam-wise pivot.  `cells` is aligned with the sorted
distinct source-file list; `none` is the `NaN` a student gets in the column
of a document with no record for them. -/
structure ExamRow where
  enrollmentNo : List Char
  name : List Char
  cells : List (Option Nat)
  cumulativeTotal : Nat
  rank : Nat
deriving DecidableEq, Repr

/-- The pivot's sorted column set: the distinct `Source File` values. -/
def examDocs (records : List Record) : List (List Char) :=
  List.insertionSort strLe ((records.map (·.sourceFile)).dedup)

/-- Lexicographic order on `(Enrollment No, Name)` index pairs. -/
def pairLe (p q : List Char × List Char) : Prop :=
  if p.1 = q.1 then strLe p.2 q.2 else strLt p.1 q.1 = true

instance : DecidableRel pairLe := fun p q => by
  unfold pairLe; infer_instance

/-- The pivot's sorted row index: distinct `(Enrollment No, Name)` pairs. -/
def examPairs (records : List Record) : List (List Char × List Char) :=
  List.insertionSort pairLe ((records.map (fun r => (r.enrollmentNo, r.name))).dedup)

/-- One pivot cell (`aggfunc='first'`, app.py line 173): the total of the
first record of the given student in the given document, `none` when the
student has no record there. -/
def cellFor (records : List Record) (e n d : List Char) : Option Nat :=
  ((records.filter
      (fun r => r.enrollmentNo == e && r.name == n && r.sourceFile == d)).head?).map
    (·.totalMarks)

/-- One pivot row before ranking: cells in column order, and the row sum
that skips missing cells (`sum(axis=1)` skips `NaN`, app.py line 178). -/
def rowFor (records : List Record) (docs : List (List Char))
    (p : List Char × List Char) : ExamRow :=
  let cells := docs.map (cellFor records p.1 p.2)
  { enrollmentNo := p.1
    name := p.2
    cells := cells
    cumulativeTotal := (cells.map (fun c => c.getD 0)).sum
    rank := 0 }

/-- Min-ranking of pivot rows (app.py lines 181-183), same rule as the
cumulative table. -/
def assignRowRanks (pre : List ExamRow) : List ExamRow :=
  pre.map (fun e =>
    { e with rank := 1 + (pre.filter (fun x => e.cumulativeTotal < x.cumulativeTotal)).length })

/-- Rank order on pivot rows, for `sort_values('Rank')`. -/
def rowRankLe (a b : ExamRow) : Prop := a.rank ≤ b.rank

instance : DecidableRel rowRankLe := fun _a _b => inferInstanceAs (Decidable (_ ≤ _))

/-- Model of `create_exam_wise_view` (app.py lines 161-188): pivot totals by source
file over the `(Enrollment No, Name)` index, sum rows treating missing as
zero, min-rank the sums, and order rows by rank. -/
def create_exam_wise_view (records : List Record) : List ExamRow :=
  let docs := examDocs records
  List.insertionSort rowRankLe
    (assignRowRanks ((examPairs records).map (rowFor records docs)))

/-! ## General lemmas about the embedded operations -/

/-- Skipping empty per-document frames before concatenation (app.py lines
98-99, 111-112) does not change the concatenation. -/
lemma flatten_filter_nonempty (L : List (List Record)) :
    (L.filter (fun l => !l.isEmpty)).flatten = L.flatten := by
  induction L with
  | nil => rfl
  | cons x xs ih =>
      by_cases hx : x.isEmpty
      · have hnil : x = [] := List.isEmpty_iff.mp hx
        simp [List.filter_cons, hx, ih, hnil]
      · simp [List.filter_cons, hx, ih]

/-- Two positions in order give a two-element sublist of `range`. -/
lemma pair_sublist_range {i j n : Nat} (hij : i < j) (hj : j < n) :
    List.Sublist [i, j] (List.range n) := by
  induction n with
  | zero => omega
  | succ m ih =>
      rw [List.range_succ]
      by_cases h : j < m
      · exact (ih h).trans (List.sublist_append_left _ _)
      · have hj' : j = m := by omega
        have h1 : List.Sublist [i] (List.range m) :=
          List.singleton_sublist.mpr (List.mem_range.mpr (by omega))
        have h2 := h1.append (List.Sublist.refl [m])
        simpa [hj'] using h2

/-- The scan `findIdentAux` returns the first matching position: if any
position in the scanned interval matches, the scan succeeds, at a position
no later than it. -/
lemma findIdentAux_first (l : List Char) :
    ∀ (fuel p0 p : Nat), p0 ≤ p → p < p0 + fuel → identMatchAt l p = true →
      ∃ q, p0 ≤ q ∧ q ≤ p ∧ identMatchAt l q = true ∧
        findIdentAux l fuel p0 = some q := by
  intro fuel
  induction fuel with
  | zero => intro p0 p h1 h2 _; omega
  | succ f ih =>
      intro p0 p h1 h2 h3
      by_cases h0 : identMatchAt l p0 = true
      · exact ⟨p0, le_refl _, h1, h0, by simp [findIdentAux, h0]⟩
      · have hne : p0 ≠ p := fun he => h0 (he ▸ h3)
        obtain ⟨q, hq1, hq2, hq3, hq4⟩ := ih (p0 + 1) p (by omega) (by omega) h3
        exact ⟨q, by omega, hq2, hq3, by simp [findIdentAux, h0, hq4]⟩

/-- A structural identifier match occupies exactly 12 characters. -/
lemma identPattern_length {cs : List Char} (h : identPattern cs = true) :
    cs.length = 12 := by
  match cs with
  | [] => simp [identPattern] at h
  | [_] => simp [identPattern] at h
  | [_, _] => simp [identPattern] at h
  | [_, _, _] => simp [identPattern] at h
  | c0 :: c1 :: c2 :: c3 :: rest =>
      simp only [identPattern, Bool.and_eq_true, beq_iff_eq] at h
      simp only [List.length_cons, h.1.2]

/-- An anchored identifier match at `p` lies inside the line. -/
lemma identMatchAt_le_length {l : List Char} {p : Nat}
    (h : identMatchAt l p = true) : p + 12 ≤ l.length := by
  have hpat : identPattern ((l.drop p).take 12) = true := by
    simp only [identMatchAt, Bool.and_eq_true] at h
    exact h.1.1
  have hlen := identPattern_length hpat
  simp only [List.length_take, List.length_drop] at hlen
  omega

/-! ## Claim C3: the validator's tolerance -/

/-- Claim C3. For every integer triple `(a, b, t)` the validator of
`extract_marks_from_pdf` (app.py line 51) accepts exactly when
`|a + b − t| ≤ 1`; in particular every triple with `|a + b − t| ≥ 2` is
rejected.  Acceptance is what lets a record be emitted from a found
triple, see `acceptedAt`. -/
theorem c3_validator_tolerance (a b t : ℤ) :
    (validTriple a b t = true ↔ |a + b - t| ≤ 1) ∧
    (2 ≤ |a + b - t| → validTriple a b t = false) := by
  have habs : |a + b - t| = ((a + b - t).natAbs : ℤ) := Int.abs_eq_natAbs _
  constructor
  · rw [validTriple, decide_eq_true_iff, habs]
    omega
  · intro h
    rw [habs] at h
    rw [validTriple, decide_eq_false_iff_not]
    omega

/-- Witness for C3 at concrete triples: `(29, 24, 53)` is accepted
(`|53 − 53| = 0`) and `(10, 10, 99)` is rejected (`|20 − 99| = 79 ≥ 2`). -/
theorem c3_validator_tolerance_witness :
    validTriple 29 24 53 = true ∧ validTriple 10 10 99 = false :=
  ⟨(c3_validator_tolerance 29 24 53).1.mpr (by decide),
   (c3_validator_tolerance 10 10 99).2 (by decide)⟩

/-! ## Claim C9: the batch is failure-tolerant and order-preserving -/

/-- A small readable document used in the batch example. -/
def c9doc1 : PdfDoc := .readable "examA.pdf".data [some ["231430142054 10 10 20".data]]

/-- A second small readable document used in the batch example. -/
def c9doc3 : PdfDoc := .readable "examC.pdf".data [some ["241430159999 5 6 11".data]]

/-- Claim C9. The batch never raises (it is a total function): its output is
exactly the concatenation, in document order, of every document's extracted
records; an unreadable document contributes the empty record list (the
`except` branch, app.py lines 77-79); and when no document yields a record
the result is the explicit empty collection (app.py lines 115-117). -/
theorem c9_batch_tolerates_failures :
    (∀ docs : List PdfDoc,
        process_multiple_pdfs docs = (docs.map extract_marks_from_pdf).flatten) ∧
    (∀ nm, extract_marks_from_pdf (PdfDoc.unreadable nm) = []) ∧
    (∀ docs : List PdfDoc, (∀ d ∈ docs, extract_marks_from_pdf d = []) →
        process_multiple_pdfs docs = []) := by
  have h1 : ∀ docs : List PdfDoc,
      process_multiple_pdfs docs = (docs.map extract_marks_from_pdf).flatten :=
    fun docs => flatten_filter_nonempty _
  refine ⟨h1, fun nm => rfl, fun docs h => ?_⟩
  rw [h1]
  rw [List.flatten_eq_nil_iff]
  intro l hl
  obtain ⟨d, hd, rfl⟩ := List.mem_map.mp hl
  exact h d hd

/-- Witness for C9: three documents with the middle one unreadable give the
records of documents 1 and 3 in order, and a batch of only unreadable
documents gives the explicit empty collection. -/
theorem c9_batch_tolerates_failures_witness :
    process_multiple_pdfs [c9doc1, PdfDoc.unreadable "bad.pdf".data, c9doc3]
        = extract_marks_from_pdf c9doc1 ++ extract_marks_from_pdf c9doc3 ∧
    process_multiple_pdfs [PdfDoc.unreadable "bad.pdf".data] = [] := by
  constructor
  · rw [c9_batch_tolerates_failures.1]
    decide
  · exact c9_batch_tolerates_failures.2.2 _ (by decide)

/-! ## Claim C4: behaviour after a rejected triple -/

/-- Document for C4: the identifier line itself holds the rejected triple
`10 10 99`; the next window line holds the valid triple `10 10 20`. -/
def c4doc : PdfDoc :=
  .readable "examA.pdf".data
    [some ["231430142054 10 10 99".data, "10 10 20".data]]

/-- Claim C4 counterexample.  At window offset 0 a triple `(10, 10, 99)` is
found and rejected by validation, yet a record IS emitted for the identifier
occurrence from the numeric-triple path: the matcher retried offset 1, whose
triple `(10, 10, 20)` validates.  This refutes the claim that no record is
emitted from the numeric-triple path once a found triple is rejected. -/
theorem c4_counterexample :
    findTriple "231430142054 10 10 99".data = some (10, 10, 99) ∧
    validTriple 10 10 99 = false ∧
    acceptedAt ["231430142054 10 10 99".data, "10 10 20".data] 0 0 = none ∧
    extract_marks_from_pdf c4doc =
      [⟨"231430142054".data, "Unknown".data, 10, 10, 20,
        "examA.pdf".data, Status.present⟩] := by
  refine ⟨by decide, by decide, by decide, by decide⟩

/-- Claim C4 amended.  A found-and-rejected triple at one offset does not end
the window search: the source `break` sits inside the validation branch
(app.py lines 51-61), so the loop continues with later offsets, and the
record, if any, comes from the first offset whose first triple passes
validation. -/
theorem c4_amended_first_validated_offset_wins
    (lines : List (List Char)) (i k : Nat) (v : Nat × Nat × Nat)
    (hk : k < 4) (hv : acceptedAt lines i k = some v)
    (hprev : ∀ j, j < k → acceptedAt lines i j = none) :
    scanWindow lines i = some v := by
  interval_cases k
  · simp [scanWindow, hv]
  · simp [scanWindow, hprev 0 (by omega), hv]
  · simp [scanWindow, hprev 0 (by omega), hprev 1 (by omega), hv]
  · simp [scanWindow, hprev 0 (by omega), hprev 1 (by omega),
      hprev 2 (by omega), hv]

/-- Witness for the amended C4, on the lines of `c4doc`: offset 0's triple
is rejected, offset 1's is accepted, and the window yields offset 1's. -/
theorem c4_amended_witness :
    scanWindow ["231430142054 10 10 99".data, "10 10 20".data] 0
      = some (10, 10, 20) :=
  c4_amended_first_validated_offset_wins _ 0 1 _ (by decide) (by decide)
    (by intro j hj; interval_cases j; decide)

/-! ## Claim C5: the window bounds -/

/-- Document for C5: the first triple-bearing window line (offset 1) holds a
rejected triple; offset 2 holds a valid one. -/
def c5doc : PdfDoc :=
  .readable "examB.pdf".data
    [some ["241430159999".data, "7 7 99".data, "7 7 14".data]]

/-- Claim C5 counterexample.  The first window line containing a score triple
is offset 1 (`7 7 99`), but the scan does not stop there: that triple is
rejected and the emitted record carries offset 2's triple `(7, 7, 14)`.
This refutes the claim that the scan stops at the first line containing
three whitespace-separated 1-2 digit integers. -/
theorem c5_counterexample :
    findTriple "7 7 99".data = some (7, 7, 99) ∧
    validTriple 7 7 99 = false ∧
    extract_marks_from_pdf c5doc =
      [⟨"241430159999".data, "Unknown".data, 7, 7, 14,
        "examB.pdf".data, Status.present⟩] := by
  refine ⟨by decide, by decide, by decide⟩

/-- Claim C5 amended.  The window inspects only lines `i` to `i+3` (`W = 4`):
the scan result is unchanged when the line list is truncated at `i+4`, and
when no offset below 4 yields a validated triple the scan fails — so a
triple whose first qualifying line sits at offset `W` or later is never
matched to the identifier at line `i`.  (The scan stops at the first
*validated* triple, not the first found one; see C4.) -/
theorem c5_amended_window_bounded :
    (∀ (lines : List (List Char)) (i : Nat),
        scanWindow lines i = scanWindow (lines.take (i + 4)) i) ∧
    (∀ (lines : List (List Char)) (i : Nat),
        (∀ k, k < 4 → acceptedAt lines i k = none) → scanWindow lines i = none) := by
  have htake : ∀ (lines : List (List Char)) (i k : Nat), k < 4 →
      acceptedAt (lines.take (i + 4)) i k = acceptedAt lines i k := by
    intro lines i k hk
    unfold acceptedAt
    have hlen : (lines.take (i + 4)).length = min (i + 4) lines.length :=
      List.length_take _ _
    have hguard : (i + k < (lines.take (i + 4)).length) ↔ i + k < lines.length := by
      rw [hlen]; omega
    by_cases hg : i + k < lines.length
    · have hg' : i + k < (lines.take (i + 4)).length := hguard.mpr hg
      have hgd : (lines.take (i + 4)).getD (i + k) [] = lines.getD (i + k) [] := by
        rw [List.getD_eq_getElem _ _ hg', List.getD_eq_getElem _ _ hg]
        rw [List.getElem_take]
      rw [if_pos hg', if_pos hg, hgd]
    · rw [if_neg (fun hc => hg (hguard.mp hc)), if_neg hg]
  constructor
  · intro lines i
    unfold scanWindow
    rw [htake lines i 0 (by omega), htake lines i 1 (by omega),
      htake lines i 2 (by omega), htake lines i 3 (by omega)]
  · intro lines i h
    simp [scanWindow, h 0 (by omega), h 1 (by omega), h 2 (by omega),
      h 3 (by omega)]

/-- Witness for the amended C5: a crafted document whose only (valid) triple
sits at offset 4 from the identifier line; the window scan must fail. -/
theorem c5_amended_witness :
    scanWindow ["241430159999".data, "x".data, "y".data, "z".data,
        "8 8 16".data] 0 = none :=
  c5_amended_window_bounded.2 _ 0 (by intro k hk; interval_cases k <;> decide)

/-! ## Claim C7: identifier scanning and word boundaries -/

/-- Claim C7 counterexample.  The line `A231430142054` contains a substring
(from position 1) matching the structural pattern — a 12-character numeric
code with the constrained prefix — yet the scanner returns nothing: the
regex's `\b` anchor fails because the preceding character `A` is a word
character.  So the claim does not hold for arbitrary surrounding
characters. -/
theorem c7_counterexample :
    identPattern (("A231430142054".data.drop 1).take 12) = true ∧
    findIdent "A231430142054".data = none := by
  refine ⟨by decide, by decide⟩

/-- Claim C7 amended.  For every line and position where the structural
pattern matches *with word-boundary context on both sides* (adjacent
characters, when they exist, are not letters, digits or underscore), the
scanner returns exactly the 12-character substring of the first such
boundary-delimited occurrence. -/
theorem c7_amended_first_delimited_occurrence (l : List Char) (p : Nat)
    (hp : identMatchAt l p = true) :
    ∃ q, q ≤ p ∧ identMatchAt l q = true ∧
      findIdent l = some ((l.drop q).take 12) := by
  have hlen : p + 12 ≤ l.length := identMatchAt_le_length hp
  obtain ⟨q, _, hq2, hq3, hq4⟩ :=
    findIdentAux_first l (l.length + 1) 0 p (Nat.zero_le _) (by omega) hp
  exact ⟨q, hq2, hq3, by simp [findIdent, hq4]⟩

/-- Witness for the amended C7: in `x 231430142054.` the identifier is
delimited by a space and a dot, and the scanner extracts exactly it. -/
theorem c7_amended_witness :
    identMatchAt "x 231430142054.".data 2 = true ∧
    ∃ q, q ≤ 2 ∧ identMatchAt "x 231430142054.".data q = true ∧
      findIdent "x 231430142054.".data
        = some (("x 231430142054.".data.drop q).take 12) :=
  ⟨by decide, c7_amended_first_delimited_occurrence _ 2 (by decide)⟩

/-! ## Claim C8: duplicate identifier occurrences within one document -/

/-- The lines of the C8 document: the same enrollment number occurs on two
lines, each carrying a valid triple. -/
def c8lines : List (List Char) :=
  ["231430142054 10 10 20".data, "231430142054 11 11 22".data]

/-- Document for C8. -/
def c8doc : PdfDoc := .readable "examC.pdf".data [some c8lines]

/-- Claim C8 counterexample.  A document in which the same identifier occurs
on two lines yields TWO records for that identifier: the extractor appends
a record per occurrence (app.py line 52) and never overwrites, refuting
"at most one record per identifier, last-seen-wins". -/
theorem c8_counterexample :
    (extract_marks_from_pdf c8doc).map (·.enrollmentNo)
        = ["231430142054".data, "231430142054".data] ∧
    (extract_marks_from_pdf c8doc).length = 2 ∧
    (extract_marks_from_pdf c8doc).map (·.totalMarks) = [20, 22] := by
  refine ⟨by decide, by decide, by decide⟩

/-- Claim C8 amended.  Duplicate occurrences are all kept: whenever two line
indices of a page each emit a record, both records appear, in line order,
in the page's output — nothing is overwritten. -/
theorem c8_amended_all_occurrences_kept (src : List Char)
    (lines : List (List Char)) (i j : Nat) (ri rj : Record)
    (hij : i < j) (hj : j < lines.length)
    (hi : processLine src lines i = some ri)
    (hjr : processLine src lines j = some rj) :
    List.Sublist [ri, rj] (extractPage src (some lines)) := by
  have h1 : List.Sublist [i, j] (List.range lines.length) :=
    pair_sublist_range hij hj
  have h2 := h1.filterMap (processLine src lines)
  simpa [List.filterMap_cons, hi, hjr, extractPage] using h2

/-- Witness for the amended C8, on the C8 document's page. -/
theorem c8_amended_witness :
    List.Sublist
      [⟨"231430142054".data, "Unknown".data, 10, 10, 20,
          "examC.pdf".data, Status.present⟩,
       ⟨"231430142054".data, "Unknown".data, 11, 11, 22,
          "examC.pdf".data, Status.present⟩]
      (extractPage "examC.pdf".data (some c8lines)) :=
  c8_amended_all_occurrences_kept _ _ 0 1 _ _ (by decide) (by decide)
    (by decide) (by decide)

/-! ## Claim C10: the absence-marker fallback -/

/-- Claim C10.  When an identifier is found on line `i` and the 4-line window
yields no validated triple, an Absent record (all scores 0) is emitted if
and only if line `i+1` exists and contains the two-character substring `AB`
anywhere — the test is bare substring containment, so `AB` inside a longer
word also triggers it — and only line `i+1` is ever consulted (the
condition on the right mentions no other line). -/
theorem c10_absent_iff_next_line_marker (src : List Char)
    (lines : List (List Char)) (i : Nat) (enr : List Char)
    (hid : findIdent (lines.getD i []) = some enr)
    (hwin : scanWindow lines i = none) :
    processLine src lines i
        = some ⟨enr, resolveName (lines.getD i []), 0, 0, 0, src, Status.absent⟩
      ↔ (i + 1 < lines.length ∧ ['A', 'B'] <:+: lines.getD (i + 1) []) := by
  have hred : processLine src lines i
      = if absentMarker lines i then
          some ⟨enr, resolveName (lines.getD i []), 0, 0, 0, src, Status.absent⟩
        else none := by
    unfold processLine
    rw [hid, hwin]
  rw [hred]
  by_cases hm : absentMarker lines i = true
  · have hm2 := hm
    unfold absentMarker at hm2
    simp only [Bool.and_eq_true, decide_eq_true_eq] at hm2
    rw [if_pos hm]
    exact iff_of_true rfl hm2
  · have hf : absentMarker lines i = false := by
      revert hm; cases absentMarker lines i <;> simp
    have hno : ¬(i + 1 < lines.length ∧ ['A', 'B'] <:+: lines.getD (i + 1) []) := by
      intro hc
      have : absentMarker lines i = true := by
        unfold absentMarker
        rw [Bool.and_eq_true, decide_eq_true_eq, decide_eq_true_eq]
        exact hc
      rw [this] at hf
      simp at hf
    rw [hf, if_neg Bool.false_ne_true]
    exact iff_of_false (fun h => Option.noConfusion h) hno

/-- Witness for C10: identifier line, empty window, and `AB` hiding inside
the word `TABLE` on the next line trigger an Absent record. -/
theorem c10_absent_witness :
    processLine "e1.pdf".data ["231430142054".data, "TABLE".data] 0
      = some ⟨"231430142054".data,
          resolveName (["231430142054".data, "TABLE".data].getD 0 []),
          0, 0, 0, "e1.pdf".data, Status.absent⟩ :=
  (c10_absent_iff_next_line_marker "e1.pdf".data
      ["231430142054".data, "TABLE".data] 0 "231430142054".data
      (by decide) (by decide)).mpr (by decide)

/-! ## Claim C1: the cumulative aggregation -/

/-- Lemma: `uniqueKeepFirstAux` has as many elements as the set of distinct
values, whenever the fuel suffices. -/
lemma uniqueKeepFirstAux_length :
    ∀ (n : Nat) (l : List (List Char)), l.length ≤ n →
      (uniqueKeepFirstAux n l).length = l.toFinset.card := by
  intro n
  induction n with
  | zero =>
      intro l hl
      have hnil : l = [] := List.length_eq_zero.mp (Nat.le_zero.mp hl)
      subst hnil
      simp [uniqueKeepFirstAux]
  | succ m ih =>
      intro l hl
      match l with
      | [] => simp [uniqueKeepFirstAux]
      | x :: xs =>
          rw [uniqueKeepFirstAux]
          have hlen : (xs.filter (fun y => y != x)).length ≤ m := by
            have := List.length_filter_le (fun y => y != x) xs
            simp only [List.length_cons] at hl
            omega
          rw [List.length_cons, ih _ hlen]
          have hfil : (xs.filter (fun y => y != x)).toFinset = xs.toFinset.erase x := by
            rw [List.toFinset_filter]
            simp only [bne_iff_ne]
            exact Finset.filter_ne' _ _
          rw [hfil, List.toFinset_cons]
          by_cases hx : x ∈ xs.toFinset
          · rw [Finset.insert_eq_self.mpr hx, Finset.card_erase_add_one hx]
          · rw [Finset.erase_eq_of_not_mem hx, Finset.card_insert_of_not_mem hx]

/-- Lemma: `uniqueKeepFirst` has as many elements as the set of distinct values. -/
lemma uniqueKeepFirst_length (l : List (List Char)) :
    (uniqueKeepFirst l).length = l.toFinset.card :=
  uniqueKeepFirstAux_length l.length l (le_refl _)

/-- Evaluation of `Rat.divInt` on cast naturals is rational division. -/
lemma divInt_natCast_eq_div (a b : ℕ) :
    Rat.divInt (a : ℤ) (b : ℤ) = (a : ℚ) / (b : ℚ) := by
  rw [Rat.divInt_eq_div, Int.cast_natCast, Int.cast_natCast]

/-- The average field of an aggregate row is the rounded quotient of its
own cumulative total and exam count. -/
lemma aggEntryFor_average (records : List Record) (k : List Char) :
    (aggEntryFor records k).averagePerExam
      = round2 (((aggEntryFor records k).cumulativeTotal : ℚ)
          / ((aggEntryFor records k).examCount : ℚ)) := by
  show round2 (Rat.divInt _ _) = _
  rw [divInt_natCast_eq_div]
  rfl

/-- Claim C1.  Every row of the cumulative table aggregates the group of
records sharing its enrollment number: its cumulative total is the sum of
the group's totals, its exam count is the number of DISTINCT source
documents in the group (not the number of records), and its average per
exam is the cumulative total divided by the exam count rounded to two
decimal places. -/
theorem c1_cumulative_aggregation (records : List Record) (e : AggEntry)
    (he : e ∈ calculate_cumulative_rankings records) :
    e.cumulativeTotal
        = ((records.filter (fun r => r.enrollmentNo == e.enrollmentNo)).map
            (·.totalMarks)).sum ∧
    e.examCount
        = ((records.filter (fun r => r.enrollmentNo == e.enrollmentNo)).map
            (·.sourceFile)).toFinset.card ∧
    e.averagePerExam = round2 ((e.cumulativeTotal : ℚ) / (e.examCount : ℚ)) := by
  unfold calculate_cumulative_rankings at he
  rw [List.mem_insertionSort] at he
  unfold assignRanks at he
  rw [List.mem_map] at he
  obtain ⟨e0, he0, heq⟩ := he
  rw [List.mem_map] at he0
  obtain ⟨k, _, rfl⟩ := he0
  subst heq
  exact ⟨rfl, uniqueKeepFirst_length _, aggEntryFor_average records k⟩

/-- Records for the C1 example: the same student writes two documents with
totals 30 and 45. -/
def c1records : List Record :=
  [⟨"231430142054".data, "RAHUL".data, 14, 16, 30, "d1.pdf".data, Status.present⟩,
   ⟨"231430142054".data, "RAHUL".data, 22, 23, 45, "d2.pdf".data, Status.present⟩]

/-- The aggregate row the C1 example produces. -/
def c1entry : AggEntry :=
  ⟨"231430142054".data, "RAHUL".data, 75, 36, 39,
    ["d1.pdf".data, "d2.pdf".data], 2, Rat.divInt 75 2, 1⟩

/-- Witness for C1: on the two-document example the aggregate for the
student has cumulativeTotal 75, examCount 2 and averagePerExam 37.5. -/
theorem c1_cumulative_aggregation_witness :
    c1entry ∈ calculate_cumulative_rankings c1records ∧
    (c1entry.cumulativeTotal
        = ((c1records.filter
            (fun r => r.enrollmentNo == c1entry.enrollmentNo)).map
                (·.totalMarks)).sum ∧
      c1entry.examCount
        = ((c1records.filter
            (fun r => r.enrollmentNo == c1entry.enrollmentNo)).map
                (·.sourceFile)).toFinset.card ∧
      c1entry.averagePerExam
        = round2 ((c1entry.cumulativeTotal : ℚ) / (c1entry.examCount : ℚ))) ∧
    c1entry.cumulativeTotal = 75 ∧ c1entry.examCount = 2 ∧
    c1entry.averagePerExam = (75 : ℚ) / 2 :=
  ⟨by decide, c1_cumulative_aggregation c1records c1entry (by decide),
   by decide, by decide,
   by rw [show c1entry.averagePerExam = Rat.divInt 75 2 from rfl,
     Rat.divInt_eq_div]; norm_num⟩

/-! ## Claim C2: min-ranking on cumulative total, output sorted by rank -/

/-- Records for the C2 example: four students with cumulative totals
100, 90, 90, 80 (one document each). -/
def c2records : List Record :=
  [⟨"231430142051".data, "A".data, 50, 50, 100, "d1.pdf".data, Status.present⟩,
   ⟨"231430142052".data, "B".data, 45, 45, 90, "d1.pdf".data, Status.present⟩,
   ⟨"231430142053".data, "C".data, 45, 45, 90, "d1.pdf".data, Status.present⟩,
   ⟨"231430142054".data, "D".data, 40, 40, 80, "d1.pdf".data, Status.present⟩]

/-- Claim C2.  In both views every row's rank is one plus the number of rows
with strictly larger cumulative total (pandas `rank(method='min',
ascending=False)`): the highest total has rank 1, equal totals share a
rank, and the next distinct total's rank is 1 plus the number of rows
strictly above.  Both outputs are ordered by rank ascending, and the
[100, 90, 90, 80] example yields ranks [1, 2, 2, 4]. -/
theorem c2_min_ranking_descending :
    (∀ (records : List Record) (e : AggEntry),
        e ∈ calculate_cumulative_rankings records →
        e.rank = 1 + ((calculate_cumulative_rankings records).filter
            (fun x => e.cumulativeTotal < x.cumulativeTotal)).length) ∧
    (∀ records : List Record,
        (calculate_cumulative_rankings records).Sorted
          (fun a b => a.rank ≤ b.rank)) ∧
    (∀ (records : List Record) (w : ExamRow),
        w ∈ create_exam_wise_view records →
        w.rank = 1 + ((create_exam_wise_view records).filter
            (fun x => w.cumulativeTotal < x.cumulativeTotal)).length) ∧
    (∀ records : List Record,
        (create_exam_wise_view records).Sorted
          (fun a b => a.rank ≤ b.rank)) ∧
    (calculate_cumulative_rankings c2records).map (·.rank) = [1, 2, 2, 4] := by
  refine ⟨?_, ?_, ?_, ?_, by decide⟩
  · intro records e he
    unfold calculate_cumulative_rankings at he ⊢
    rw [List.mem_insertionSort] at he
    unfold assignRanks at he
    rw [List.mem_map] at he
    obtain ⟨e0, _, heq⟩ := he
    have hrank : e.rank = 1 + ((((records.map (·.enrollmentNo)).dedup.insertionSort
        strLe).map (aggEntryFor records)).filter
          (fun x => e0.cumulativeTotal < x.cumulativeTotal)).length := by
      rw [← heq]
    have hcum : e.cumulativeTotal = e0.cumulativeTotal := by rw [← heq]
    rw [hrank, hcum]
    congr 1
    have hperm := (List.perm_insertionSort aggRankLe
        (assignRanks (((records.map (·.enrollmentNo)).dedup.insertionSort
          strLe).map (aggEntryFor records)))).filter
            (fun x => decide (e0.cumulativeTotal < x.cumulativeTotal))
    rw [hperm.length_eq]
    have key : ∀ (L : List AggEntry),
        (List.filter (fun x : AggEntry => decide (e0.cumulativeTotal < x.cumulativeTotal))
          (L.map (fun e : AggEntry => { e with rank := 1 + (List.filter
            (fun x : AggEntry => decide (e.cumulativeTotal < x.cumulativeTotal)) L).length
              }))).length
        = (List.filter
            (fun x : AggEntry => decide (e0.cumulativeTotal < x.cumulativeTotal)) L).length := by
      intro L
      rw [List.filter_map, List.length_map]
      rfl
    exact (key _).symm
  · intro records
    unfold calculate_cumulative_rankings
    haveI : IsTotal AggEntry aggRankLe := ⟨fun a b => Nat.le_total a.rank b.rank⟩
    haveI : IsTrans AggEntry aggRankLe := ⟨fun _ _ _ hab hbc => Nat.le_trans hab hbc⟩
    exact List.sorted_insertionSort aggRankLe _
  · intro records w hw
    unfold create_exam_wise_view at hw ⊢
    rw [List.mem_insertionSort] at hw
    unfold assignRowRanks at hw
    rw [List.mem_map] at hw
    obtain ⟨w0, _, heq⟩ := hw
    have hrank : w.rank = 1 + (((examPairs records).map
        (rowFor records (examDocs records))).filter
          (fun x => w0.cumulativeTotal < x.cumulativeTotal)).length := by
      rw [← heq]
    have hcum : w.cumulativeTotal = w0.cumulativeTotal := by rw [← heq]
    rw [hrank, hcum]
    congr 1
    have hperm := (List.perm_insertionSort rowRankLe
        (assignRowRanks ((examPairs records).map
          (rowFor records (examDocs records))))).filter
            (fun x => decide (w0.cumulativeTotal < x.cumulativeTotal))
    rw [hperm.length_eq]
    have key : ∀ (L : List ExamRow),
        (List.filter (fun x : ExamRow => decide (w0.cumulativeTotal < x.cumulativeTotal))
          (L.map (fun e : ExamRow => { e with rank := 1 + (List.filter
            (fun x : ExamRow => decide (e.cumulativeTotal < x.cumulativeTotal)) L).length
              }))).length
        = (List.filter
            (fun x : ExamRow => decide (w0.cumulativeTotal < x.cumulativeTotal)) L).length := by
      intro L
      rw [List.filter_map, List.length_map]
      rfl
    exact (key _).symm
  · intro records
    unfold create_exam_wise_view
    haveI : IsTotal ExamRow rowRankLe := ⟨fun a b => Nat.le_total a.rank b.rank⟩
    haveI : IsTrans ExamRow rowRankLe := ⟨fun _ _ _ hab hbc => Nat.le_trans hab hbc⟩
    exact List.sorted_insertionSort rowRankLe _

/-- The top aggregate row of the C2 example. -/
def c2top : AggEntry :=
  ⟨"231430142051".data, "A".data, 100, 50, 50, ["d1.pdf".data], 1,
    Rat.divInt 100 1, 1⟩

/-- Witness for C2: the 100-total student of the example is in the output
with rank 1, which equals one plus the number of strictly better rows. -/
theorem c2_min_ranking_descending_witness :
    c2top ∈ calculate_cumulative_rankings c2records ∧
    c2top.rank = 1 + ((calculate_cumulative_rankings c2records).filter
        (fun x => c2top.cumulativeTotal < x.cumulativeTotal)).length :=
  ⟨by decide, c2_min_ranking_descending.1 c2records c2top (by decide)⟩

/-! ## Claim C6: the exam-wise pivot and missing cells -/

/-- A pivot cell is missing exactly when the student has no record in that
document. -/
lemma cellFor_eq_none_iff (records : List Record) (e n d : List Char) :
    cellFor records e n d = none ↔
      ∀ r ∈ records, ¬(r.enrollmentNo = e ∧ r.name = n ∧ r.sourceFile = d) := by
  unfold cellFor
  rw [Option.map_eq_none', List.head?_eq_none_iff, List.filter_eq_nil_iff]
  constructor
  · intro h r hr hc
    exact h r hr (by simp [hc.1, hc.2.1, hc.2.2])
  · intro h r hr hb
    apply h r hr
    simp only [Bool.and_eq_true, beq_iff_eq] at hb
    exact ⟨hb.1.1, hb.1.2, hb.2⟩

/-- Projecting the index pair back out of the pivot rows is the identity. -/
lemma map_pair_rowFor (records : List Record) (docs : List (List Char))
    (g : ExamRow → Nat) :
    ∀ ps : List (List Char × List Char),
      (((ps.map (rowFor records docs)).map
          (fun e : ExamRow => { e with rank := g e })).map
        (fun w : ExamRow => (w.enrollmentNo, w.name))) = ps := by
  intro ps
  induction ps with
  | nil => rfl
  | cons p ps ih =>
      simp only [List.map_cons, List.map_map] at ih ⊢
      rw [ih]
      rfl

/-- Claim C6.  The pivot has one row per distinct `(identifier, name)` pair;
each row has one cell per distinct source document; a cell is a missing
value (`none`, not zero) exactly when that student has no record in that
document; and the row's cumulative total sums the cells treating missing
cells as zero for summation only. -/
theorem c6_pivot_missing_not_zero :
    (∀ (records : List Record) (row : ExamRow) (j : Nat),
        row ∈ create_exam_wise_view records → j < (examDocs records).length →
        row.cells.length = (examDocs records).length ∧
        row.cumulativeTotal = (row.cells.map (fun c => c.getD 0)).sum ∧
        (row.cells.getD j none = none ↔
          ∀ r ∈ records, ¬(r.enrollmentNo = row.enrollmentNo ∧
            r.name = row.name ∧
            r.sourceFile = (examDocs records).getD j []))) ∧
    (∀ records : List Record,
        ((create_exam_wise_view records).map
            (fun w : ExamRow => (w.enrollmentNo, w.name))).Perm
          ((records.map (fun r => (r.enrollmentNo, r.name))).dedup)) := by
  constructor
  · intro records row j hrow hj
    unfold create_exam_wise_view at hrow
    rw [List.mem_insertionSort] at hrow
    unfold assignRowRanks at hrow
    rw [List.mem_map] at hrow
    obtain ⟨w0, hw0, heq⟩ := hrow
    rw [List.mem_map] at hw0
    obtain ⟨p, _, rfl⟩ := hw0
    subst heq
    refine ⟨List.length_map _ _, rfl, ?_⟩
    have hcell : (rowFor records (examDocs records) p).cells.getD j none
        = cellFor records p.1 p.2 ((examDocs records).getD j []) := by
      show ((examDocs records).map (cellFor records p.1 p.2)).getD j none = _
      rw [List.getD_eq_getElem _ _ (by simpa using hj), List.getElem_map,
        List.getD_eq_getElem _ _ hj]
    show (rowFor records (examDocs records) p).cells.getD j none = none ↔ _
    rw [hcell, cellFor_eq_none_iff]
    exact Iff.rfl
  · intro records
    unfold create_exam_wise_view
    have h1 := (List.perm_insertionSort rowRankLe
        (assignRowRanks ((examPairs records).map
          (rowFor records (examDocs records))))).map
            (fun w : ExamRow => (w.enrollmentNo, w.name))
    refine h1.trans ?_
    unfold assignRowRanks
    rw [map_pair_rowFor]
    exact List.perm_insertionSort pairLe _

/-- Records for the C6 example: student A sits only document A, student B
sits documents A and B. -/
def c6records : List Record :=
  [⟨"231430142051".data, "A".data, 14, 16, 30, "dA.pdf".data, Status.present⟩,
   ⟨"231430142052".data, "B".data, 20, 20, 40, "dA.pdf".data, Status.present⟩,
   ⟨"231430142052".data, "B".data, 22, 23, 45, "dB.pdf".data, Status.present⟩]

/-- Student A's pivot row: present in document A's column, missing (not
zero) in document B's, with cumulative total 30. -/
def c6rowA : ExamRow := ⟨"231430142051".data, "A".data, [some 30, none], 30, 2⟩

/-- Witness for C6 at the two-document example: student A's row is in the
pivot with a missing document-B cell and cumulative total 30. -/
theorem c6_pivot_missing_not_zero_witness :
    c6rowA ∈ create_exam_wise_view c6records ∧
    (c6rowA.cells.length = (examDocs c6records).length ∧
      c6rowA.cumulativeTotal = (c6rowA.cells.map (fun c => c.getD 0)).sum ∧
      (c6rowA.cells.getD 1 none = none ↔
        ∀ r ∈ c6records, ¬(r.enrollmentNo = c6rowA.enrollmentNo ∧
          r.name = c6rowA.name ∧
          r.sourceFile = (examDocs c6records).getD 1 []))) ∧
    c6rowA.cells = [some 30, none] ∧ c6rowA.cumulativeTotal = 30 :=
  ⟨by decide,
   c6_pivot_missing_not_zero.1 c6records c6rowA 1 (by decide) (by decide),
   by decide, by decide⟩
